import Mathlib

/-!
Verification of the dm-unit btree/block-manager wrappers and their tests.

The Rust source is shallowly embedded: guest addresses and machine integers
are `Nat` (u64 / u32 values), byte streams are `List Nat` (each element a
byte value), fallible operations return `Option` or `Except`, and the
`Guest` trait's `pack`/`unpack` (byteorder little-endian writes and reads)
are explicit byte-list producers and consumers.
-/

/-! ## Little-endian marshalling (byteorder `write_uN::<LittleEndian>` / `read_uN`) -/

/-- `w`-byte little-endian encoding of `n`, as produced by
`write_u8/u32/u64::<LittleEndian>` (low byte first). -/
def encodeLE : Nat → Nat → List Nat
  | 0, _ => []
  | w + 1, n => n % 256 :: encodeLE w (n / 256)

/-- Little-endian value of a byte list (low byte first), as read by
`read_u32/u64::<LittleEndian>`. -/
def decodeLE : List Nat → Nat
  | [] => 0
  | b :: bs => b + 256 * decodeLE bs

/-- Read a `w`-byte little-endian integer from the front of a byte stream,
returning the value and the rest; `none` when the stream is too short
(an `io::Result` error in the source). -/
def readLE (w : Nat) (bs : List Nat) : Option (Nat × List Nat) :=
  if w ≤ bs.length then some (decodeLE (bs.take w), bs.drop w) else none

theorem encodeLE_length (w : Nat) : ∀ n, (encodeLE w n).length = w := by
  induction w with
  | zero => intro n; simp [encodeLE]
  | succ w ih => intro n; simp [encodeLE, ih]

theorem decodeLE_encodeLE (w : Nat) : ∀ n, n < 256 ^ w → decodeLE (encodeLE w n) = n := by
  induction w with
  | zero =>
    intro n h
    simp only [pow_zero, Nat.lt_one_iff] at h
    simp [encodeLE, decodeLE, h]
  | succ w ih =>
    intro n h
    have hdiv : n / 256 < 256 ^ w := by
      have h2 : n < 256 * 256 ^ w := by
        rw [pow_succ] at h
        omega
      omega
    simp [encodeLE, decodeLE, ih _ hdiv]
    omega

theorem readLE_append (w n : Nat) (rest : List Nat) (h : n < 256 ^ w) :
    readLE w (encodeLE w n ++ rest) = some (n, rest) := by
  have hlen : (encodeLE w n).length = w := encodeLE_length w n
  have htl : ∀ l : List Nat, l.length = w → (l ++ rest).take w = l := fun l hl =>
    hl ▸ List.take_left l rest
  have hdl : ∀ l : List Nat, l.length = w → (l ++ rest).drop w = rest := fun l hl =>
    hl ▸ List.drop_left l rest
  have ht : (encodeLE w n ++ rest).take w = encodeLE w n := htl _ hlen
  have hd : (encodeLE w n ++ rest).drop w = rest := hdl _ hlen
  unfold readLE
  rw [if_pos (by rw [List.length_append, hlen]; omega), ht, hd, decodeLE_encodeLE w n h]

/-! ## `Value64` (tests/btree.rs): a u64 wrapped so it can be stored in btrees -/

structure Value64 where
  val : Nat
deriving DecidableEq

def Value64.guest_len : Nat := 8

def Value64.pack (v : Value64) : List Nat := encodeLE 8 v.val

def Value64.unpack (bs : List Nat) : Option (Value64 × List Nat) :=
  (readLE 8 bs).map fun p => (⟨p.1⟩, p.2)

/-! ## `CursorEntry` and `CopyCursor` (wrappers/btree.rs) -/

structure CursorEntry where
  node : Nat
  begin : Nat
  end_ : Nat
deriving DecidableEq

def CursorEntry.guest_len : Nat := 16

def CursorEntry.pack (e : CursorEntry) : List Nat :=
  encodeLE 8 e.node ++ encodeLE 4 e.begin ++ encodeLE 4 e.end_

def CursorEntry.unpack (bs : List Nat) : Option (CursorEntry × List Nat) :=
  (readLE 8 bs).bind fun p =>
    (readLE 4 p.2).bind fun q =>
      (readLE 4 q.2).map fun r => (⟨p.1, q.1, r.1⟩, r.2)

/-- Field bounds of a marshalled `CursorEntry`: `node` is a u64,
`begin`/`end` are u32. -/
def CursorEntry.wf (e : CursorEntry) : Prop :=
  e.node < 2 ^ 64 ∧ e.begin < 2 ^ 32 ∧ e.end_ < 2 ^ 32

instance (e : CursorEntry) : Decidable e.wf := by
  unfold CursorEntry.wf; infer_instance

structure CopyCursor where
  index : Nat
  entries : List CursorEntry
deriving DecidableEq

def CopyCursor.guest_len : Nat := 56

def packEntries : List CursorEntry → List Nat
  | [] => []
  | e :: es => e.pack ++ packEntries es

/-- `CopyCursor::pack`: writes the entry count, the index, then the entries.
The source `assert!(self.entries.len() <= 3)` (a panic) is modelled as `none`. -/
def CopyCursor.pack (c : CopyCursor) : Option (List Nat) :=
  if c.entries.length ≤ 3 then
    some (encodeLE 4 c.entries.length ++ encodeLE 4 c.index ++ packEntries c.entries)
  else none

def readEntries : Nat → List Nat → Option (List CursorEntry × List Nat)
  | 0, bs => some ([], bs)
  | n + 1, bs =>
    (CursorEntry.unpack bs).bind fun p =>
      (readEntries n p.2).map fun q => (p.1 :: q.1, q.2)

/-- `CopyCursor::unpack`: reads count (asserting `count <= 3`), index, then
`count` entries. -/
def CopyCursor.unpack (bs : List Nat) : Option (CopyCursor × List Nat) :=
  (readLE 4 bs).bind fun p =>
    if p.1 ≤ 3 then
      (readLE 4 p.2).bind fun q =>
        (readEntries p.1 q.2).map fun r => (⟨q.1, r.1⟩, r.2)
    else none

def CopyCursor.wf (c : CopyCursor) : Prop :=
  c.index < 2 ^ 32 ∧ ∀ e ∈ c.entries, e.wf

instance (c : CopyCursor) : Decidable c.wf := by
  unfold CopyCursor.wf; infer_instance

/-! ## `BTreeValueType` and `BTreeInfo` (wrappers/btree.rs)

The Rust types are generic over a `Guest` value type `G`; that genericity
only enters `pack` through `G::guest_len()`, passed here as `gLen`. -/

structure BTreeValueType where
  context : Nat
  inc_fn : Nat
  dec_fn : Nat
  eq_fn : Nat
deriving DecidableEq

/-- Source comment: "4 functions ptrs and a u32". -/
def BTreeValueType.guest_len : Nat := 4 * 8 + 4

def BTreeValueType.pack (gLen : Nat) (v : BTreeValueType) : List Nat :=
  encodeLE 8 v.context ++ encodeLE 4 gLen ++ encodeLE 4 0 ++
    encodeLE 8 v.inc_fn ++ encodeLE 8 v.dec_fn ++ encodeLE 8 v.eq_fn

structure BTreeInfo where
  tm : Nat
  levels : Nat
  vtype : BTreeValueType
deriving DecidableEq

def BTreeInfo.guest_len : Nat := 8 + 4 + BTreeValueType.guest_len

def BTreeInfo.pack (gLen : Nat) (i : BTreeInfo) : List Nat :=
  encodeLE 8 i.tm ++ encodeLE 4 i.levels ++ encodeLE 4 0 ++ i.vtype.pack gLen

/-- C8: the claim says every `pack` writes exactly `guest_len()` bytes, so a
`guest_len()`-sized guest buffer always suffices.  The code contradicts it:
`BTreeValueType::pack` writes 40 bytes (u64 context, u32 size, u32 padding
and three u64 function pointers) while `guest_len()` returns `4*8+4 = 36`,
and `BTreeInfo::pack` writes 56 bytes while `guest_len()` returns 48 — the
explicit padding word written by `pack` is not counted by `guest_len`.
`CopyCursor::pack` writes `8 + 16·n ≤ 56` bytes for `n` entries, short of
`guest_len() = 56` whenever `n < 3` (there the buffer still suffices). -/
theorem pack_guest_len_mismatch :
    (BTreeValueType.pack Value64.guest_len ⟨0, 0, 0, 0⟩).length = 40 ∧
    BTreeValueType.guest_len = 36 ∧
    (BTreeInfo.pack Value64.guest_len ⟨0, 1, ⟨0, 0, 0, 0⟩⟩).length = 56 ∧
    BTreeInfo.guest_len = 48 ∧
    (CopyCursor.pack ⟨0, [⟨0, 0, 10⟩, ⟨0, 34, 96⟩]⟩).map List.length = some 40 ∧
    CopyCursor.guest_len = 56 := by
  decide

/-! ## C9: pack/unpack roundtrips -/

theorem cursor_entry_roundtrip (e : CursorEntry) (rest : List Nat) (h : e.wf) :
    CursorEntry.unpack (e.pack ++ rest) = some (e, rest) := by
  obtain ⟨h1, h2, h3⟩ := h
  have p64 : (2 : Nat) ^ 64 = 256 ^ 8 := by norm_num
  have p32 : (2 : Nat) ^ 32 = 256 ^ 4 := by norm_num
  rw [p64] at h1
  rw [p32] at h2 h3
  simp [CursorEntry.unpack, CursorEntry.pack, List.append_assoc,
    readLE_append _ _ _ h1, readLE_append _ _ _ h2, readLE_append _ _ _ h3]

theorem readEntries_packEntries (es : List CursorEntry) :
    ∀ rest, (∀ e ∈ es, e.wf) →
      readEntries es.length (packEntries es ++ rest) = some (es, rest) := by
  induction es with
  | nil => intro rest _; simp [packEntries, readEntries]
  | cons e es ih =>
    intro rest h
    have he := h e (by simp)
    have hrec := ih rest fun x hx => h x (by simp [hx])
    simp [packEntries, readEntries, List.append_assoc, cursor_entry_roundtrip e _ he, hrec]

theorem copy_cursor_roundtrip (c : CopyCursor) (bs rest : List Nat)
    (h3 : c.entries.length ≤ 3) (hwf : c.wf) (hp : c.pack = some bs) :
    CopyCursor.unpack (bs ++ rest) = some (c, rest) := by
  obtain ⟨hidx, hes⟩ := hwf
  have p32 : (2 : Nat) ^ 32 = 256 ^ 4 := by norm_num
  rw [p32] at hidx
  have hlen : c.entries.length < 256 ^ 4 := by
    have : (3 : Nat) < 256 ^ 4 := by norm_num
    omega
  unfold CopyCursor.pack at hp
  rw [if_pos h3] at hp
  obtain rfl : encodeLE 4 c.entries.length ++ encodeLE 4 c.index ++ packEntries c.entries = bs :=
    Option.some.injEq _ _ ▸ hp
  simp [CopyCursor.unpack, List.append_assoc, readLE_append _ _ _ hlen,
    readLE_append _ _ _ hidx, if_pos h3, readEntries_packEntries c.entries rest hes]

theorem value64_roundtrip (v : Value64) (rest : List Nat) (h : v.val < 2 ^ 64) :
    Value64.unpack (v.pack ++ rest) = some (v, rest) := by
  have p64 : (2 : Nat) ^ 64 = 256 ^ 8 := by norm_num
  rw [p64] at h
  simp [Value64.unpack, Value64.pack, readLE_append _ _ _ h]

/-- C9: packing then unpacking is the identity on the marshalled types, and
`unpack` consumes exactly the bytes `pack` produced (any trailing bytes
`rest` are returned untouched): this holds for `CursorEntry`, for any
`CopyCursor` with at most 3 entries, and for `Value64`. -/
theorem pack_unpack_roundtrip :
    (∀ (e : CursorEntry) (rest : List Nat), e.wf →
        CursorEntry.unpack (e.pack ++ rest) = some (e, rest)) ∧
    (∀ (c : CopyCursor) (bs rest : List Nat), c.entries.length ≤ 3 → c.wf →
        c.pack = some bs → CopyCursor.unpack (bs ++ rest) = some (c, rest)) ∧
    (∀ (v : Value64) (rest : List Nat), v.val < 2 ^ 64 →
        Value64.unpack (v.pack ++ rest) = some (v, rest)) :=
  ⟨cursor_entry_roundtrip, copy_cursor_roundtrip, value64_roundtrip⟩

/-- C9 witness: the roundtrip theorem applied at concrete values. -/
theorem pack_unpack_roundtrip_witness :
    CursorEntry.unpack ((⟨7, 2, 3⟩ : CursorEntry).pack ++ [9]) = some (⟨7, 2, 3⟩, [9]) ∧
    CopyCursor.unpack (((⟨5, [⟨7, 2, 3⟩]⟩ : CopyCursor).pack).getD [] ++ [4]) =
      some (⟨5, [⟨7, 2, 3⟩]⟩, [4]) ∧
    Value64.unpack ((⟨11⟩ : Value64).pack ++ [8]) = some (⟨11⟩, [8]) :=
  ⟨pack_unpack_roundtrip.1 ⟨7, 2, 3⟩ [9] (by decide),
   pack_unpack_roundtrip.2.1 ⟨5, [⟨7, 2, 3⟩]⟩ _ [4] (by decide) (by decide) rfl,
   pack_unpack_roundtrip.2.2 ⟨11⟩ [8] (by decide)⟩

/-! ## The guest `consume_cursor` function and its host wrapper

The kernel function `consume_cursor` that the wrapper calls is guest object
code, not part of this repository's sources. -/

/-- Modelled from the spec: the guest `consume_cursor` kernel function, which
is loaded object code and absent from the sources.  Per the spec's
cursor-consumption invariant and scenarios, advancing by `len` positions
consumes the current entry's `begin..end` range, stepping `index` across
entry boundaries (when an entry is consumed exactly, `index` advances but
`begin` is left at `end`), and fails when `len` exceeds the total remaining
positions.  `fuel` bounds the recursion; `entries.length + 1 - index` steps
always suffice. -/
def consumeGo : Nat → CopyCursor → Nat → Option CopyCursor
  | 0, _, _ => none
  | fuel + 1, c, len =>
    if len = 0 then some c
    else
      match c.entries.get? c.index with
      | none => none
      | some e =>
        let rem := e.end_ - e.begin
        if len < rem then
          some { c with entries := c.entries.set c.index { e with begin := e.begin + len } }
        else consumeGo fuel { c with index := c.index + 1 } (len - rem)

/-- Modelled from the spec: entry point of the guest consume function. -/
def consume (c : CopyCursor) (len : Nat) : Option CopyCursor :=
  consumeGo (c.entries.length + 1 - c.index) c len

/-- The host wrapper `consume_cursor` (wrappers/btree.rs), parameterised by
the guest function `g` it invokes.  The wrapper packs the host cursor into
guest memory (the `pack` assertion `entries.len() <= 3` guards the call),
runs the guest via `call_with_errno`, and only on success reads the guest
cursor back and overwrites the host cursor; marshalling is elided here (it
is the roundtrip proved in `pack_unpack_roundtrip`).  The returned pair is
(wrapper result, host cursor after the call). -/
def consume_cursor (g : CopyCursor → Nat → Option CopyCursor) (cursor : CopyCursor)
    (len : Nat) : Except String Unit × CopyCursor :=
  if cursor.entries.length ≤ 3 then
    match g cursor len with
    | some c2 => (Except.ok (), c2)
    | none => (Except.error "consume_cursor: guest returned errno", cursor)
  else (Except.error "assertion failed: entries.len() <= 3", cursor)

/-- C2: from `{index: 0, entries: [(0,10),(34,96),(17,34)]}`, a single
`consume_cursor` call with `len = 10 + (96-34) + 3 = 75` succeeds and leaves
`{index: 2, entries: [(0,10),(34,96),(20,34)]}`: consumption advances
`begin` within the current entry and steps `index` across entry
boundaries. -/
theorem consume_cursor_multiple_entries :
    consume_cursor consume ⟨0, [⟨0, 0, 10⟩, ⟨0, 34, 96⟩, ⟨0, 17, 34⟩]⟩ (10 + (96 - 34) + 3) =
      (Except.ok (), ⟨2, [⟨0, 0, 10⟩, ⟨0, 34, 96⟩, ⟨0, 20, 34⟩]⟩) := rfl

/-- C3: whenever the `consume_cursor` wrapper returns an error — whatever
the guest function did, in particular when `len` exceeds the total remaining
positions — the host-side cursor is returned exactly as it was; it is
overwritten only on success. -/
theorem consume_cursor_error_preserves
    (g : CopyCursor → Nat → Option CopyCursor) (c : CopyCursor) (len : Nat)
    (msg : String) (h : (consume_cursor g c len).1 = Except.error msg) :
    (consume_cursor g c len).2 = c := by
  unfold consume_cursor at h ⊢
  by_cases h3 : c.entries.length ≤ 3
  · rw [if_pos h3] at h ⊢
    cases hg : g c len with
    | none => simp [hg]
    | some c2 => rw [hg] at h; simp at h
  · rw [if_neg h3]

/-- C3 witness: consuming 2 from a cursor holding a single position fails
and leaves the cursor untouched. -/
theorem consume_cursor_error_preserves_witness :
    (consume_cursor consume ⟨0, [⟨0, 0, 1⟩]⟩ 2).2 = ⟨0, [⟨0, 0, 1⟩]⟩ :=
  consume_cursor_error_preserves consume ⟨0, [⟨0, 0, 1⟩]⟩ 2
    "consume_cursor: guest returned errno" rfl

/-! ## The insert tests (tests/btree.rs `do_insert_test_`) -/

/-- The residency check inside `do_insert_test_`: after each pass the
measured residency is compared with the target, but the body of the `if` —
`return Err(anyhow!("Residency is too low ({}%)", residency))` — is
commented out in the source, so the check never produces an error. -/
def residency_check (residency target_residency : Nat) : Except String Unit :=
  if residency < target_residency then
    -- the source's `return Err(...)` here is commented out
    Except.ok ()
  else Except.ok ()

/-- C4 counterexample: a measured residency of 74% against the ascending
test's target of 75% does not make the test return an error. -/
theorem residency_check_counterexample : residency_check 74 75 = Except.ok () := rfl

/-- C4 amended: whenever the measured residency is below the target, the
test carries on without error — the error return is commented out, so low
residency is only observable through the logged statistics. -/
theorem residency_check_never_fails (residency target : Nat) :
    residency_check residency target = Except.ok () := by
  unfold residency_check
  split <;> rfl

/-- `commit_interval` from `do_insert_test_`. -/
def commit_interval : Nat := 100

/-- The commit cadence of `do_insert_test_`'s insert loop: after each
insert, if the counter has reached zero a commit is performed and the
counter is reset to `commit_interval`; the counter is then decremented.
Returns (whether a commit happened after this insert, new counter). -/
def commitStep (counter : Nat) : Bool × Nat :=
  if counter = 0 then (true, commit_interval - 1) else (false, counter - 1)

/-- Counter value after the `j`-th insert of the run (it starts at
`commit_interval` and is never re-initialised between passes). -/
def counterAfter : Nat → Nat
  | 0 => commit_interval
  | j + 1 => (commitStep (counterAfter j)).2

/-- Whether a commit is performed immediately after insert number `i`
(1-based). -/
def commitAfter (i : Nat) : Bool :=
  (commitStep (counterAfter (i - 1))).1

theorem counterAfter_eq (j : Nat) :
    counterAfter j = if j = 0 then 100 else (100 - j % 100) % 100 := by
  induction j with
  | zero => simp [counterAfter, commit_interval]
  | succ j ih =>
    rw [counterAfter, ih]
    rcases Nat.eq_zero_or_pos j with h0 | h0
    · subst h0
      decide
    · rw [if_neg (by omega : ¬j = 0), if_neg (by omega : ¬j + 1 = 0)]
      unfold commitStep commit_interval
      by_cases hc : (100 - j % 100) % 100 = 0
      · rw [if_pos hc]
        show (100 : Nat) - 1 = (100 - (j + 1) % 100) % 100
        omega
      · rw [if_neg hc]
        show (100 - j % 100) % 100 - 1 = (100 - (j + 1) % 100) % 100
        omega

set_option maxRecDepth 4000 in
/-- C7 counterexample: in the insert loop no commit happens after insert
number 100 (nor after any of the first 100 inserts); the first commit of
the run happens after insert number 101. -/
theorem commit_after_100_counterexample :
    commitAfter 100 = false ∧ commitAfter 101 = true := by decide

/-- C7 amended: the insert loop checks the counter before decrementing it,
so commits are performed after inserts number 101, 201, 301, … — every 100
insertions, offset by one from the claimed 100, 200, 300, … . -/
theorem commit_schedule (i : Nat) : commitAfter i = true ↔ 101 ≤ i ∧ i % 100 = 1 := by
  unfold commitAfter commitStep
  rw [counterAfter_eq (i - 1)]
  by_cases h1 : i - 1 = 0
  · rw [if_pos h1, if_neg (by omega : ¬(100 : Nat) = 0)]
    simp
    omega
  · rw [if_neg h1]
    by_cases hc : (100 - (i - 1) % 100) % 100 = 0
    · rw [if_pos hc]
      simp
      omega
    · rw [if_neg hc]
      simp
      omega

/-! ## `lock_` (wrappers/block_manager.rs)

The helper behind `dm_bm_read_lock`, `dm_bm_write_lock` and
`dm_bm_write_lock_zero`.  The host allocator is modelled by its live-set of
allocation bases (a `Finset Nat`); `fix.vm.mem.alloc(8)` returns a fresh
base `slot`, and `fix.call(lock_fn)` is an oracle `guest` that, given the
result-slot address, yields the value the guest leaves in register `A0` and
the 8 bytes it stores into the slot.  `read_into::<u64>` is the
little-endian decoding of those bytes. -/

def lock_ (live : Finset Nat) (slot : Nat) (guest : Nat → Nat × List Nat) :
    Except String Nat × Finset Nat :=
  let live1 := insert slot live
  let g := guest slot
  if g.1 ≠ 0 then (Except.error "lock failed", live1)
  else (Except.ok (decodeLE ((g.2).take 8)), live1.erase slot)

/-- C5 counterexample: when the guest lock function returns a non-zero
`A0`, `lock_` returns early and the 8-byte result slot is NOT freed — the
allocator live-set after the call is the live-set before it plus the slot,
not equal to it. -/
theorem lock_leak_counterexample :
    (lock_ ∅ 7 (fun _ => (1, List.replicate 8 0))).2 = {7} ∧
    (lock_ ∅ 7 (fun _ => (1, List.replicate 8 0))).1 = Except.error "lock failed" := by
  constructor
  · rfl
  · rfl

/-- C5 amended: `lock_` frees the 8-byte result slot on the success path
only; when the guest lock function returns a non-zero code the wrapper
returns the error before `free`, so the slot stays in the allocator
live-set. -/
theorem lock_frees_slot_on_success (live : Finset Nat) (slot : Nat)
    (guest : Nat → Nat × List Nat) (h : slot ∉ live) :
    ((guest slot).1 = 0 → (lock_ live slot guest).2 = live) ∧
    ((guest slot).1 ≠ 0 → (lock_ live slot guest).2 = insert slot live) := by
  unfold lock_
  constructor
  · intro h0
    rw [if_neg (by simp [h0])]
    exact Finset.erase_insert h
  · intro hne
    rw [if_pos (by simpa using hne)]

/-- C5 witness: the amended theorem applied at a guest that succeeds and at
one that fails. -/
theorem lock_frees_slot_on_success_witness :
    (lock_ {3} 7 (fun _ => (0, List.replicate 8 0))).2 = {3} ∧
    (lock_ {3} 7 (fun _ => (5, List.replicate 8 0))).2 = insert 7 {3} :=
  ⟨(lock_frees_slot_on_success {3} 7 (fun _ => (0, List.replicate 8 0)) (by decide)).1 rfl,
   (lock_frees_slot_on_success {3} 7 (fun _ => (5, List.replicate 8 0)) (by decide)).2
     (by decide)⟩

/-- C6: `lock_` (hence `dm_bm_read_lock`, `dm_bm_write_lock`,
`dm_bm_write_lock_zero`) returns an error exactly when the guest lock
function leaves a non-zero value in `A0`; when `A0` is zero it returns `Ok`
with the 64-bit little-endian value the guest stored in the caller-supplied
result slot. -/
theorem lock_errno (live : Finset Nat) (slot : Nat) (guest : Nat → Nat × List Nat) :
    ((lock_ live slot guest).1 = Except.error "lock failed" ↔ (guest slot).1 ≠ 0) ∧
    ((guest slot).1 = 0 →
      (lock_ live slot guest).1 = Except.ok (decodeLE ((guest slot).2.take 8))) := by
  unfold lock_
  by_cases hg : (guest slot).1 = 0
  · rw [if_neg (by simp [hg])]
    simp [hg]
  · rw [if_pos (by simpa using hg)]
    simp [hg]

/-- C6 witness: a guest that succeeds and stores bytes `[2,1,0,…,0]` makes
the wrapper return `Ok 258`; one that leaves 5 in `A0` makes it fail. -/
theorem lock_errno_witness :
    (lock_ ∅ 0 (fun _ => (0, [2, 1, 0, 0, 0, 0, 0, 0]))).1 = Except.ok 258 ∧
    (lock_ ∅ 0 (fun _ => (5, [2, 1, 0, 0, 0, 0, 0, 0]))).1 = Except.error "lock failed" :=
  ⟨(lock_errno ∅ 0 (fun _ => (0, [2, 1, 0, 0, 0, 0, 0, 0]))).2 rfl,
   (lock_errno ∅ 0 (fun _ => (5, [2, 1, 0, 0, 0, 0, 0, 0]))).1.mpr (by decide)⟩

/-! ## Effect-traced btree wrappers (wrappers/btree.rs)

For C10 the wrappers are embedded as trace-producing functions: every
guest-memory allocation, guest-memory write, argument-register write, guest
call, guest-memory read and free is recorded, in source order.  A `Fixture`
oracle supplies the addresses the allocator returns, the `A0` errno each
`call_with_errno` observes, and the values read back from guest memory. -/

inductive Reg where
  | A0 | A1 | A2 | A3 | A4 | A5
deriving DecidableEq

inductive Effect where
  | allocE (len addr : Nat)
  | writeMem (addr : Nat)
  | setReg (r : Reg) (v : Nat)
  | callGuest (fn : String)
  | readMem (addr : Nat)
  | freeE (addr : Nat)
deriving DecidableEq

structure Fixture where
  allocAt : Nat → Nat
  errno : String → Nat
  readVal : Nat → Nat

/-- `dm_btree_lookup`: `ensure!(keys.len() == info.levels)`, then marshal
`info` and `keys`, allocate the value slot, set `A0..A3`, invoke the guest,
read the value back on success; the three `AutoGPtr` guards free in reverse
order on every exit path after their allocation. -/
def dm_btree_lookup (fx : Fixture) (levels root : Nat) (keys : List Nat) (vLen : Nat) :
    Except String Nat × List Effect :=
  if keys.length = levels then
    let infoPtr := fx.allocAt 0
    let keysPtr := fx.allocAt 1
    let valuePtr := fx.allocAt 2
    let pre : List Effect :=
      [.allocE BTreeInfo.guest_len infoPtr, .writeMem infoPtr,
       .setReg .A0 infoPtr, .setReg .A1 root,
       .allocE (8 * keys.length) keysPtr] ++
      (List.range keys.length).map (fun i => .writeMem (keysPtr + 8 * i)) ++
      [.setReg .A2 keysPtr,
       .allocE vLen valuePtr, .setReg .A3 valuePtr,
       .callGuest "dm_btree_lookup"]
    let frees : List Effect := [.freeE valuePtr, .freeE keysPtr, .freeE infoPtr]
    if fx.errno "dm_btree_lookup" = 0 then
      (Except.ok (fx.readVal valuePtr), pre ++ [.readMem valuePtr] ++ frees)
    else (Except.error "dm_btree_lookup: call failed", pre ++ frees)
  else (Except.error "ensure failed: keys.len() == info.levels", [])

/-- `dm_btree_lookup_next`: as `dm_btree_lookup` but also allocating the
result-keys array (set into `A3`) and the value slot (whose address the
source never writes into a register), and reading the result keys back. -/
def dm_btree_lookup_next (fx : Fixture) (levels root : Nat) (keys : List Nat) (vLen : Nat) :
    Except String (List Nat × Nat) × List Effect :=
  if keys.length = levels then
    let infoPtr := fx.allocAt 0
    let keysPtr := fx.allocAt 1
    let rkeysPtr := fx.allocAt 2
    let valuePtr := fx.allocAt 3
    let pre : List Effect :=
      [.allocE BTreeInfo.guest_len infoPtr, .writeMem infoPtr,
       .setReg .A0 infoPtr, .setReg .A1 root,
       .allocE (8 * keys.length) keysPtr] ++
      (List.range keys.length).map (fun i => .writeMem (keysPtr + 8 * i)) ++
      [.setReg .A2 keysPtr,
       .allocE (8 * levels) rkeysPtr, .setReg .A3 rkeysPtr,
       .allocE vLen valuePtr,
       .callGuest "dm_btree_lookup_next"]
    let frees : List Effect := [.freeE valuePtr, .freeE rkeysPtr, .freeE keysPtr, .freeE infoPtr]
    if fx.errno "dm_btree_lookup_next" = 0 then
      (Except.ok ((List.range keys.length).map (fun i => fx.readVal (rkeysPtr + 8 * i)),
          fx.readVal valuePtr),
        pre ++ (List.range keys.length).map (fun i => .readMem (rkeysPtr + 8 * i)) ++
          [.readMem valuePtr] ++ frees)
    else (Except.error "dm_btree_lookup_next: call failed", pre ++ frees)
  else (Except.error "ensure failed: keys.len() == info.levels", [])

/-- `dm_btree_remove`: guard, marshal `info` and `keys`, allocate the
new-root slot, set `A0..A3`, call, read the new root on success. -/
def dm_btree_remove (fx : Fixture) (levels root : Nat) (keys : List Nat) :
    Except String Nat × List Effect :=
  if keys.length = levels then
    let infoPtr := fx.allocAt 0
    let keysPtr := fx.allocAt 1
    let newRootPtr := fx.allocAt 2
    let pre : List Effect :=
      [.allocE BTreeInfo.guest_len infoPtr, .writeMem infoPtr,
       .setReg .A0 infoPtr, .setReg .A1 root,
       .allocE (8 * keys.length) keysPtr] ++
      (List.range keys.length).map (fun i => .writeMem (keysPtr + 8 * i)) ++
      [.setReg .A2 keysPtr,
       .allocE 8 newRootPtr, .setReg .A3 newRootPtr,
       .callGuest "dm_btree_remove"]
    let frees : List Effect := [.freeE newRootPtr, .freeE keysPtr, .freeE infoPtr]
    if fx.errno "dm_btree_remove" = 0 then
      (Except.ok (fx.readVal newRootPtr), pre ++ [.readMem newRootPtr] ++ frees)
    else (Except.error "dm_btree_remove: call failed", pre ++ frees)
  else (Except.error "ensure failed: keys.len() == info.levels", [])

/-- `dm_btree_remove_leaves`: guard, then (in source order) allocate info,
keys, new-root and the 4-byte `inserted` slot, set `A0..A4` (with `end_key`
in `A3`), call, and read both results back on success. -/
def dm_btree_remove_leaves (fx : Fixture) (levels root : Nat) (keys : List Nat)
    (endKey : Nat) : Except String (Nat × Nat) × List Effect :=
  if keys.length = levels then
    let infoPtr := fx.allocAt 0
    let keysPtr := fx.allocAt 1
    let newRootPtr := fx.allocAt 2
    let insertedPtr := fx.allocAt 3
    let pre : List Effect :=
      [.allocE BTreeInfo.guest_len infoPtr, .writeMem infoPtr,
       .allocE (8 * keys.length) keysPtr] ++
      (List.range keys.length).map (fun i => .writeMem (keysPtr + 8 * i)) ++
      [.allocE 8 newRootPtr, .allocE 4 insertedPtr,
       .setReg .A0 infoPtr, .setReg .A1 root, .setReg .A2 keysPtr,
       .setReg .A3 endKey, .setReg .A4 newRootPtr,
       .callGuest "dm_btree_remove_leaves"]
    let frees : List Effect :=
      [.freeE insertedPtr, .freeE newRootPtr, .freeE keysPtr, .freeE infoPtr]
    if fx.errno "dm_btree_remove_leaves" = 0 then
      (Except.ok (fx.readVal newRootPtr, fx.readVal insertedPtr),
        pre ++ [.readMem newRootPtr, .readMem insertedPtr] ++ frees)
    else (Except.error "dm_btree_remove_leaves: call failed", pre ++ frees)
  else (Except.error "ensure failed: keys.len() == info.levels", [])

/-- C10: whenever the key-slice length differs from `info.levels`, each of
`dm_btree_lookup`, `dm_btree_lookup_next`, `dm_btree_remove` and
`dm_btree_remove_leaves` returns an error immediately, with an empty effect
trace — no guest allocation, no memory or register write, and no guest
call. -/
theorem btree_keys_levels_guard (fx : Fixture) (levels root vLen endKey : Nat)
    (keys : List Nat) (h : keys.length ≠ levels) :
    dm_btree_lookup fx levels root keys vLen =
      (Except.error "ensure failed: keys.len() == info.levels", []) ∧
    dm_btree_lookup_next fx levels root keys vLen =
      (Except.error "ensure failed: keys.len() == info.levels", []) ∧
    dm_btree_remove fx levels root keys =
      (Except.error "ensure failed: keys.len() == info.levels", []) ∧
    dm_btree_remove_leaves fx levels root keys endKey =
      (Except.error "ensure failed: keys.len() == info.levels", []) := by
  unfold dm_btree_lookup dm_btree_lookup_next dm_btree_remove dm_btree_remove_leaves
  simp [if_neg h]

/-- C10 witness: the guard theorem at a concrete fixture oracle, one key
and a two-level tree. -/
theorem btree_keys_levels_guard_witness :
    dm_btree_lookup ⟨fun _ => 0, fun _ => 0, fun _ => 0⟩ 2 0 [5] 8 =
      (Except.error "ensure failed: keys.len() == info.levels", []) ∧
    dm_btree_lookup_next ⟨fun _ => 0, fun _ => 0, fun _ => 0⟩ 2 0 [5] 8 =
      (Except.error "ensure failed: keys.len() == info.levels", []) ∧
    dm_btree_remove ⟨fun _ => 0, fun _ => 0, fun _ => 0⟩ 2 0 [5] =
      (Except.error "ensure failed: keys.len() == info.levels", []) ∧
    dm_btree_remove_leaves ⟨fun _ => 0, fun _ => 0, fun _ => 0⟩ 2 0 [5] 9 =
      (Except.error "ensure failed: keys.len() == info.levels", []) :=
  btree_keys_levels_guard ⟨fun _ => 0, fun _ => 0, fun _ => 0⟩ 2 0 8 9 [5] (by decide)

/-! ## `check_moves` (tests/btree.rs)

The redistribute test captures the `memmove(dest, src, len)` calls the
guest makes and checks that no byte is read after having been written.
Addresses are u64 values; the traced moves stay far below `2^64`, so plain
`Nat` arithmetic is used. -/

structure Move where
  dest : Nat
  src : Nat
  len : Nat
deriving DecidableEq

/-- The inner loop of `check_moves` for one move: byte offsets are visited
in order, and offset `i` first asserts that `src + i` is not in the
write-set, then inserts `dest + i` into it.  Returns the grown write-set,
or `none` when the `ensure!` fails. -/
def checkBytes (dest src : Nat) : Nat → Nat → Finset Nat → Option (Finset Nat)
  | _, 0, writes => some writes
  | i, rem + 1, writes =>
    if src + i ∈ writes then none
    else checkBytes dest src (i + 1) rem (insert (dest + i) writes)

/-- `check_moves`: folds the per-move check over the list, threading the
write-set (a `BTreeSet<u64>` in the source), starting from the given set
(empty at the top-level call site). -/
def check_moves : List Move → Finset Nat → Option (Finset Nat)
  | [], writes => some writes
  | m :: ms, writes =>
    match checkBytes m.dest m.src 0 m.len writes with
    | none => none
    | some w2 => check_moves ms w2

/-- The bytes written by one move: `{dest + k : k < len}`. -/
def moveWrites (m : Move) : Finset Nat :=
  (Finset.range m.len).image (fun k => m.dest + k)

/-- The union of the write-sets of the given moves. -/
def writeSet : List Move → Finset Nat
  | [] => ∅
  | m :: ms => moveWrites m ∪ writeSet ms

/-- The claim's acceptance condition for `check_moves`: every source byte of
move `i` avoids the write-set of the earlier moves `0..i-1` only. -/
def claimNoRAW (ms : List Move) : Prop :=
  ∀ i, i < ms.length → ∀ k, k < (ms.getD i ⟨0, 0, 0⟩).len →
    (ms.getD i ⟨0, 0, 0⟩).src + k ∉ writeSet (ms.take i)

/-- The condition `check_moves` actually decides: every source byte of move
`i` must also avoid the bytes the SAME move has already written at smaller
offsets, because the write-set grows byte by byte inside the move loop. -/
def codeNoRAW (ms : List Move) : Prop :=
  ∀ i, i < ms.length → ∀ k, k < (ms.getD i ⟨0, 0, 0⟩).len →
    (ms.getD i ⟨0, 0, 0⟩).src + k ∉
      writeSet (ms.take i) ∪
        (Finset.range k).image (fun t => (ms.getD i ⟨0, 0, 0⟩).dest + t)

theorem shift_mem_iff (d s i t : Nat) (w : Finset Nat) :
    s + (i + 1 + t) ∈ insert (d + i) w ∪ (Finset.range t).image (fun u => d + (i + 1 + u)) ↔
    s + (i + (t + 1)) ∈ w ∪ (Finset.range (t + 1)).image (fun u => d + (i + u)) := by
  have hst : s + (i + 1 + t) = s + (i + (t + 1)) := by omega
  rw [hst]
  simp only [Finset.mem_union, Finset.mem_insert, Finset.mem_image, Finset.mem_range]
  constructor
  · rintro ((he | hw) | ⟨u, hu, he⟩)
    · right; exact ⟨0, by omega, by omega⟩
    · left; exact hw
    · right; exact ⟨u + 1, by omega, by omega⟩
  · rintro (hw | ⟨u, hu, he⟩)
    · left; right; exact hw
    · cases u with
      | zero => left; left; omega
      | succ v => right; exact ⟨v, by omega, by omega⟩

theorem checkBytes_ne_none (d s : Nat) :
    ∀ (rem i : Nat) (w : Finset Nat),
      checkBytes d s i rem w ≠ none ↔
        ∀ t, t < rem → s + (i + t) ∉ w ∪ (Finset.range t).image (fun u => d + (i + u)) := by
  intro rem
  induction rem with
  | zero =>
    intro i w
    simp [checkBytes]
  | succ rem ih =>
    intro i w
    simp only [checkBytes]
    by_cases hmem : s + i ∈ w
    · rw [if_pos hmem]
      refine iff_of_false (fun hc => hc rfl) fun hAll => ?_
      have h0 := hAll 0 (Nat.succ_pos rem)
      simp at h0
      exact h0 hmem
    · rw [if_neg hmem, ih (i + 1) (insert (d + i) w)]
      constructor
      · intro hp t ht
        cases t with
        | zero =>
          simp only [Finset.range_zero, Finset.image_empty, Finset.union_empty, Nat.add_zero]
          exact hmem
        | succ u =>
          exact (not_congr (shift_mem_iff d s i u w)).mp (hp u (by omega))
      · intro hq u hu
        exact (not_congr (shift_mem_iff d s i u w)).mpr (hq (u + 1) (by omega))

theorem checkBytes_eq (d s : Nat) :
    ∀ (rem i : Nat) (w w' : Finset Nat), checkBytes d s i rem w = some w' →
      w' = w ∪ (Finset.range rem).image (fun t => d + (i + t)) := by
  intro rem
  induction rem with
  | zero =>
    intro i w w' h
    simp only [checkBytes, Option.some.injEq] at h
    subst h
    simp
  | succ rem ih =>
    intro i w w' h
    simp only [checkBytes] at h
    by_cases hmem : s + i ∈ w
    · rw [if_pos hmem] at h
      exact absurd h (by simp)
    · rw [if_neg hmem] at h
      rw [ih (i + 1) (insert (d + i) w) w' h]
      ext x
      simp only [Finset.mem_union, Finset.mem_insert, Finset.mem_image, Finset.mem_range]
      constructor
      · rintro ((he | hw) | ⟨u, hu, he⟩)
        · right; exact ⟨0, by omega, by omega⟩
        · left; exact hw
        · right; exact ⟨u + 1, by omega, by omega⟩
      · rintro (hw | ⟨u, hu, he⟩)
        · left; right; exact hw
        · cases u with
          | zero => left; left; omega
          | succ v => right; exact ⟨v, by omega, by omega⟩

/-- The condition `check_moves` decides, phrased recursively: each move's
source bytes must avoid the write-set accumulated so far together with the
same move's own already-written bytes. -/
def noRAW : Finset Nat → List Move → Prop
  | _, [] => True
  | w, m :: ms =>
    (∀ k, k < m.len → m.src + k ∉ w ∪ (Finset.range k).image (fun t => m.dest + t)) ∧
      noRAW (w ∪ moveWrites m) ms

theorem check_moves_ne_none : ∀ (ms : List Move) (w : Finset Nat),
    check_moves ms w ≠ none ↔ noRAW w ms := by
  intro ms
  induction ms with
  | nil => intro w; simp [check_moves, noRAW]
  | cons m ms ih =>
    intro w
    simp only [check_moves]
    cases hcb : checkBytes m.dest m.src 0 m.len w with
    | none =>
      refine iff_of_false (fun hc => hc rfl) ?_
      rintro ⟨h1, _⟩
      have hAll : ∀ t, t < m.len →
          m.src + (0 + t) ∉ w ∪ (Finset.range t).image (fun u => m.dest + (0 + u)) := by
        intro t ht
        simpa using h1 t ht
      have hne := (checkBytes_ne_none m.dest m.src m.len 0 w).mpr hAll
      rw [hcb] at hne
      exact hne rfl
    | some w2 =>
      rw [ih w2]
      have hw2 : w2 = w ∪ moveWrites m := by
        rw [checkBytes_eq m.dest m.src m.len 0 w w2 hcb]
        unfold moveWrites
        ext x
        simp
      have hcond : ∀ k, k < m.len →
          m.src + k ∉ w ∪ (Finset.range k).image (fun t => m.dest + t) := by
        have hne : checkBytes m.dest m.src 0 m.len w ≠ none := by rw [hcb]; simp
        have hAll := (checkBytes_ne_none m.dest m.src m.len 0 w).mp hne
        intro k hk
        simpa using hAll k hk
      have hnr : noRAW w (m :: ms) =
          ((∀ k, k < m.len → m.src + k ∉ w ∪ (Finset.range k).image (fun t => m.dest + t)) ∧
            noRAW (w ∪ moveWrites m) ms) := rfl
      rw [hnr, hw2]
      constructor
      · intro hn; exact ⟨hcond, hn⟩
      · rintro ⟨_, hn⟩; exact hn

theorem noRAW_iff_idx : ∀ (ms : List Move) (w : Finset Nat),
    noRAW w ms ↔
      ∀ i, i < ms.length → ∀ k, k < (ms.getD i ⟨0, 0, 0⟩).len →
        (ms.getD i ⟨0, 0, 0⟩).src + k ∉
          w ∪ writeSet (ms.take i) ∪
            (Finset.range k).image (fun t => (ms.getD i ⟨0, 0, 0⟩).dest + t) := by
  intro ms
  induction ms with
  | nil =>
    intro w
    simp [noRAW]
  | cons m ms ih =>
    intro w
    have hnr : noRAW w (m :: ms) =
        ((∀ k, k < m.len → m.src + k ∉ w ∪ (Finset.range k).image (fun t => m.dest + t)) ∧
          noRAW (w ∪ moveWrites m) ms) := rfl
    rw [hnr]
    constructor
    · rintro ⟨h0, hrec⟩ i hi k hk
      cases i with
      | zero =>
        simp only [List.getD_cons_zero, List.take_zero, writeSet, Finset.union_empty] at hk ⊢
        exact h0 k hk
      | succ j =>
        have hj : j < ms.length := by
          simp only [List.length_cons] at hi
          omega
        have h2 := (ih (w ∪ moveWrites m)).mp hrec j hj k
          (by simpa [List.getD_cons_succ] using hk)
        simp only [List.getD_cons_succ, List.take_succ_cons, writeSet]
        simpa [Finset.union_assoc] using h2
    · intro h
      refine ⟨?_, ?_⟩
      · intro k hk
        have h2 := h 0 (by simp) k (by simpa [List.getD_cons_zero] using hk)
        simpa [List.getD_cons_zero, writeSet] using h2
      · rw [ih (w ∪ moveWrites m)]
        intro j hj k hk
        have h2 := h (j + 1) (by simp only [List.length_cons]; omega) k
          (by simpa [List.getD_cons_succ] using hk)
        simp only [List.getD_cons_succ, List.take_succ_cons, writeSet] at h2
        simpa [Finset.union_assoc] using h2

/-- C1 counterexample: the single move `memmove(dest=1, src=0, len=2)` has
no earlier moves, so the claim's condition (sources avoid the write-set of
the EARLIER moves) holds; yet `check_moves` rejects it, because inside the
move byte 0 writes address 1 and byte 1 then reads address 1. -/
theorem check_moves_claim_counterexample :
    claimNoRAW [⟨1, 0, 2⟩] ∧ check_moves [⟨1, 0, 2⟩] ∅ = none := by
  constructor
  · unfold claimNoRAW
    decide
  · decide

/-- C1 amended: `check_moves(moves)` succeeds if and only if for every move
`m_i` and every byte offset `k < m_i.len`, the address `m_i.src + k` is
neither in the write-set of the earlier moves `m_0..m_{i-1}` nor among the
bytes `m_i.dest + t` with `t < k` already written by the current move. -/
theorem check_moves_iff_noRAW (ms : List Move) :
    check_moves ms ∅ ≠ none ↔ codeNoRAW ms := by
  rw [check_moves_ne_none ms ∅, noRAW_iff_idx ms ∅]
  unfold codeNoRAW
  constructor <;> intro h i hi k hk <;> have h2 := h i hi k hk <;>
    simpa [Finset.empty_union] using h2
